import Mathlib

/-!
Verification of the Stripe/Notion invoice reconciliation engine.

Python strings are modeled as `List Char`; Python `datetime` values are
modeled by `Date` (calendar date, used where only `strftime` formatting
matters) and by `Instant := Int` (used where only the ordering of
last-modified instants matters; the code compares instants after
`replace(tzinfo=None)`, which the integer model absorbs).
-/

/-- Python `str.isspace` characters relevant to `str.strip()` (ASCII set). -/
def isPySpace (c : Char) : Bool :=
  c = ' ' || c = '\t' || c = '\n' || c = '\r' || c = '\x0b' || c = '\x0c'

/-- Leading half of Python `str.strip()`. -/
def stripLeading (s : List Char) : List Char := s.dropWhile isPySpace

/-- Trailing half of Python `str.strip()`. -/
def stripTrailing (s : List Char) : List Char :=
  (s.reverse.dropWhile isPySpace).reverse

/-- Python `str.strip()`: remove leading and trailing whitespace. -/
def pyStrip (s : List Char) : List Char := stripTrailing (stripLeading s)

/-- Python `s.split(sep)` for a one-character separator. -/
def splitOnChar (sep : Char) : List Char → List (List Char)
  | [] => [[]]
  | c :: cs =>
    if c = sep then [] :: splitOnChar sep cs
    else
      match splitOnChar sep cs with
      | [] => [[c]]
      | l :: ls => (c :: l) :: ls

/-- Python `sep.join(parts)` for a one-character separator. -/
def joinOnChar (sep : Char) : List (List Char) → List Char
  | [] => []
  | [l] => l
  | l :: l' :: ls => l ++ sep :: joinOnChar sep (l' :: ls)

theorem splitOnChar_ne_nil (sep : Char) (s : List Char) : splitOnChar sep s ≠ [] := by
  induction s with
  | nil => simp [splitOnChar]
  | cons c cs ih =>
    simp only [splitOnChar]
    split
    · simp
    · split <;> simp

theorem splitOnChar_no_sep (sep : Char) (s : List Char) :
    ∀ l ∈ splitOnChar sep s, sep ∉ l := by
  induction s with
  | nil =>
    intro l hl
    simp [splitOnChar] at hl
    simp [hl]
  | cons c cs ih =>
    intro l hl
    simp only [splitOnChar] at hl
    by_cases hc : c = sep
    · rw [if_pos hc] at hl
      rcases List.mem_cons.mp hl with h | h
      · simp [h]
      · exact ih l h
    · rw [if_neg hc] at hl
      rcases hsp : splitOnChar sep cs with _ | ⟨l0, ls0⟩
      · exact absurd hsp (splitOnChar_ne_nil sep cs)
      · rw [hsp] at hl
        rcases List.mem_cons.mp hl with h | h
        · subst h
          intro hmem
          rcases List.mem_cons.mp hmem with h | h
          · exact hc h.symm
          · exact ih l0 (by rw [hsp]; exact List.mem_cons_self l0 ls0) h
        · exact ih l (by rw [hsp]; exact List.mem_cons_of_mem l0 h)

theorem splitOnChar_eq_single (sep : Char) (l : List Char) (h : sep ∉ l) :
    splitOnChar sep l = [l] := by
  induction l with
  | nil => rfl
  | cons c cs ih =>
    have hc : ¬ c = sep := fun e => h (by simp [e])
    have hcs : sep ∉ cs := fun hm => h (List.mem_cons_of_mem _ hm)
    simp only [splitOnChar, if_neg hc, ih hcs]

theorem splitOnChar_cons_sep (sep : Char) (t : List Char) :
    splitOnChar sep (sep :: t) = [] :: splitOnChar sep t := by
  simp [splitOnChar]

theorem splitOnChar_cons_ne (sep c : Char) (hc : ¬ c = sep) (t : List Char) :
    splitOnChar sep (c :: t) =
      match splitOnChar sep t with
      | [] => [[c]]
      | l :: ls => (c :: l) :: ls := by
  simp [splitOnChar, hc]

theorem splitOnChar_append (sep : Char) (a b : List Char) :
    splitOnChar sep (a ++ sep :: b) = splitOnChar sep a ++ splitOnChar sep b := by
  induction a with
  | nil => simp [splitOnChar, splitOnChar_cons_sep]
  | cons c cs ih =>
    rw [List.cons_append]
    by_cases hc : c = sep
    · rw [hc, splitOnChar_cons_sep, splitOnChar_cons_sep, ih, List.cons_append]
    · rw [splitOnChar_cons_ne sep c hc, splitOnChar_cons_ne sep c hc, ih]
      rcases hsp : splitOnChar sep cs with _ | ⟨l0, ls0⟩
      · exact absurd hsp (splitOnChar_ne_nil sep cs)
      · rfl

theorem joinOnChar_splitOnChar (sep : Char) (s : List Char) :
    joinOnChar sep (splitOnChar sep s) = s := by
  induction s with
  | nil => rfl
  | cons c cs ih =>
    by_cases hc : c = sep
    · rw [hc, splitOnChar_cons_sep]
      rcases hsp : splitOnChar sep cs with _ | ⟨l0, ls0⟩
      · exact absurd hsp (splitOnChar_ne_nil sep cs)
      · rw [hsp] at ih
        simp only [joinOnChar, List.nil_append, ih]
    · rw [splitOnChar_cons_ne sep c hc]
      rcases hsp : splitOnChar sep cs with _ | ⟨l0, ls0⟩
      · exact absurd hsp (splitOnChar_ne_nil sep cs)
      · rw [hsp] at ih
        cases ls0 with
        | nil => simp only [joinOnChar] at ih ⊢; rw [ih]
        | cons l1 ls1 => simp only [joinOnChar] at ih ⊢; rw [← ih]; rfl

theorem splitOnChar_joinOnChar (sep : Char) (ls : List (List Char)) (h1 : ls ≠ [])
    (h2 : ∀ l ∈ ls, sep ∉ l) : splitOnChar sep (joinOnChar sep ls) = ls := by
  induction ls with
  | nil => exact absurd rfl h1
  | cons l ls ih =>
    cases ls with
    | nil =>
      simp only [joinOnChar]
      exact splitOnChar_eq_single sep l (h2 l (List.mem_cons_self l []))
    | cons l' ls' =>
      simp only [joinOnChar]
      rw [splitOnChar_append, splitOnChar_eq_single sep l (h2 l (List.mem_cons_self _ _))]
      rw [ih (by simp) (fun x hx => h2 x (List.mem_cons_of_mem l hx))]
      rfl

theorem joinOnChar_concat (sep : Char) (xs : List (List Char)) (y : List Char)
    (h : xs ≠ []) : joinOnChar sep (xs ++ [y]) = joinOnChar sep xs ++ sep :: y := by
  induction xs with
  | nil => exact absurd rfl h
  | cons l ls ih =>
    cases ls with
    | nil => simp [joinOnChar]
    | cons l' ls' =>
      have h2 := ih (by simp)
      calc joinOnChar sep ((l :: l' :: ls') ++ [y])
          = l ++ sep :: joinOnChar sep ((l' :: ls') ++ [y]) := rfl
        _ = l ++ sep :: (joinOnChar sep (l' :: ls') ++ sep :: y) := by rw [h2]
        _ = (l ++ sep :: joinOnChar sep (l' :: ls')) ++ sep :: y := by
              rw [List.append_assoc]; rfl
        _ = joinOnChar sep (l :: l' :: ls') ++ sep :: y := rfl

theorem infix_of_mem_joinOnChar (sep : Char) {l : List Char} {ls : List (List Char)}
    (h : l ∈ ls) : l <:+: joinOnChar sep ls := by
  induction ls with
  | nil => exact absurd h (List.not_mem_nil l)
  | cons l0 ls0 ih =>
    cases ls0 with
    | nil =>
      rcases List.mem_cons.mp h with h | h
      · subst h; exact List.infix_rfl
      · exact absurd h (List.not_mem_nil l)
    | cons l1 ls1 =>
      rcases List.mem_cons.mp h with h | h
      · subst h
        exact (List.prefix_append l (sep :: joinOnChar sep (l1 :: ls1))).isInfix
      · have htail : l <:+: joinOnChar sep (l1 :: ls1) := ih h
        refine htail.trans (List.IsSuffix.isInfix ?_)
        exact (List.suffix_cons sep _).trans (List.suffix_append l0 _)

theorem infix_of_mem_splitOnChar {sep : Char} {l s : List Char}
    (h : l ∈ splitOnChar sep s) : l <:+: s := by
  have := infix_of_mem_joinOnChar sep h
  rwa [joinOnChar_splitOnChar] at this

theorem prefix_no_sep {sep : Char} {t a b : List Char}
    (h : t <+: a ++ sep :: b) (hn : sep ∉ t) : t <+: a := by
  induction a generalizing t with
  | nil =>
    cases t with
    | nil => exact List.nil_prefix
    | cons x xs =>
      rcases List.cons_prefix_cons.mp h with ⟨hx, _⟩
      exact absurd (by rw [hx]; exact List.mem_cons_self sep xs) hn
  | cons c cs ih =>
    cases t with
    | nil => exact List.nil_prefix
    | cons x xs =>
      rcases List.cons_prefix_cons.mp h with ⟨hx, h'⟩
      have hxs : sep ∉ xs := fun hm => hn (List.mem_cons_of_mem x hm)
      exact List.cons_prefix_cons.mpr ⟨hx, ih h' hxs⟩

theorem infix_no_sep_append {sep : Char} {t a b : List Char}
    (h : t <:+: a ++ sep :: b) (hn : sep ∉ t) : t <:+: a ∨ t <:+: b := by
  induction a with
  | nil =>
    rw [List.nil_append] at h
    rcases List.infix_cons_iff.mp h with hp | hi
    · cases t with
      | nil => exact Or.inl (List.nil_infix)
      | cons x xs =>
        rcases List.cons_prefix_cons.mp hp with ⟨hx, _⟩
        exact absurd (by rw [hx]; exact List.mem_cons_self sep xs) hn
    · exact Or.inr hi
  | cons c cs ih =>
    rw [List.cons_append] at h
    rcases List.infix_cons_iff.mp h with hp | hi
    · have : t <+: c :: cs := prefix_no_sep (a := c :: cs) (by rwa [List.cons_append]) hn
      exact Or.inl this.isInfix
    · rcases ih hi with h1 | h2
      · exact Or.inl (List.infix_cons h1)
      · exact Or.inr h2

theorem infix_joinOnChar_iff {sep : Char} {t : List Char} (hn : sep ∉ t) :
    ∀ ls : List (List Char), ls ≠ [] →
      (t <:+: joinOnChar sep ls ↔ ∃ l ∈ ls, t <:+: l) := by
  intro ls
  induction ls with
  | nil => intro h; exact absurd rfl h
  | cons l0 ls0 ih =>
    intro _
    cases ls0 with
    | nil =>
      simp only [joinOnChar]
      constructor
      · intro h; exact ⟨l0, List.mem_cons_self _ _, h⟩
      · rintro ⟨l, hl, hinf⟩
        rcases List.mem_cons.mp hl with h | h
        · rwa [← h]
        · exact absurd h (List.not_mem_nil l)
    | cons l1 ls1 =>
      simp only [joinOnChar]
      constructor
      · intro h
        rcases infix_no_sep_append h hn with h1 | h2
        · exact ⟨l0, List.mem_cons_self _ _, h1⟩
        · rcases (ih (by simp)).mp h2 with ⟨l, hl, hinf⟩
          exact ⟨l, List.mem_cons_of_mem l0 hl, hinf⟩
      · rintro ⟨l, hl, hinf⟩
        rcases List.mem_cons.mp hl with h | h
        · subst h
          exact hinf.trans (List.prefix_append l _).isInfix
        · have : t <:+: joinOnChar sep (l1 :: ls1) := hinf.trans (infix_of_mem_joinOnChar sep h)
          refine this.trans (List.IsSuffix.isInfix ?_)
          exact (List.suffix_cons sep _).trans (List.suffix_append l0 _)

/-- Decimal digit character, used by the zero-padded strftime fields. -/
def digitChar (n : Nat) : Char :=
  match n % 10 with
  | 0 => '0' | 1 => '1' | 2 => '2' | 3 => '3' | 4 => '4'
  | 5 => '5' | 6 => '6' | 7 => '7' | 8 => '8' | _ => '9'

/-- Two-digit zero-padded field (months and days are below 100). -/
def pad2 (n : Nat) : List Char := [digitChar (n / 10), digitChar n]

/-- Four-digit zero-padded field (Python datetime years are 1..9999). -/
def pad4 (n : Nat) : List Char :=
  [digitChar (n / 1000), digitChar (n / 100), digitChar (n / 10), digitChar n]

/-- Calendar-date part of a Python `datetime` (the only part the code's
strftime format string reads). -/
structure Date where
  year : Nat
  month : Nat
  day : Nat
deriving DecidableEq

/-- Python `d.strftime(..Y-..m-..d)`: the `YYYY-MM-DD` rendering. -/
def Date.fmt (d : Date) : List Char :=
  pad4 d.year ++ '-' :: pad2 d.month ++ '-' :: pad2 d.day

/-- SyncService._format_billing_period: empty for a missing start date,
`YYYY-MM-DD` for a point date, `YYYY-MM-DD to YYYY-MM-DD` for a range. -/
def formatBillingPeriod (startDate : Option Date) (endDate : Option Date) : List Char :=
  match startDate with
  | none => []
  | some s =>
    match endDate with
    | some e => s.fmt ++ ' ' :: 't' :: 'o' :: ' ' :: e.fmt
    | none => s.fmt

/-- The literal label scanned for by SyncService.handle_notion_update. -/
def bpLabel : List Char := "Billing Period:".data

/-- The labelled line the merge writes into the memo. -/
def bpLine (ps : Date) (pe : Option Date) : List Char :=
  bpLabel ++ ' ' :: formatBillingPeriod (some ps) pe

/-- Per-line replacement step of the merge loop in
SyncService.handle_notion_update (lines 234-240). -/
def replaceBpLine (ps : Date) (pe : Option Date) (line : List Char) : List Char :=
  if bpLabel <+: line then bpLine ps pe else line

/-- Billing-period merge inlined in SyncService.handle_notion_update
(lines 228-247): when the label occurs anywhere in the memo (Python
substring containment) every line starting with the label is rewritten
and the lines are rejoined; otherwise the labelled line is appended after
a newline and the whole result is stripped. -/
def mergeBillingPeriod (memo : List Char) (ps : Date) (pe : Option Date) : List Char :=
  if bpLabel <:+: memo then
    joinOnChar '\n' ((splitOnChar '\n' memo).map (replaceBpLine ps pe))
  else
    pyStrip (memo ++ '\n' :: bpLine ps pe)

theorem digitChar_not_newline (n : Nat) : ¬ digitChar n = '\n' := by
  unfold digitChar
  split <;> decide

theorem digitChar_not_space (n : Nat) : isPySpace (digitChar n) = false := by
  unfold digitChar
  split <;> decide

theorem not_newline_pad2 (n : Nat) : '\n' ∉ pad2 n := by
  intro h
  rcases List.mem_cons.mp h with h | h
  · exact digitChar_not_newline _ h.symm
  · rcases List.mem_cons.mp h with h | h
    · exact digitChar_not_newline _ h.symm
    · exact List.not_mem_nil _ h

theorem not_newline_pad4 (n : Nat) : '\n' ∉ pad4 n := by
  intro h
  simp only [pad4, List.mem_cons, List.not_mem_nil, or_false] at h
  rcases h with h | h | h | h <;> exact digitChar_not_newline _ h.symm

theorem not_mem_append_chars {c : Char} {a b : List Char} (h1 : c ∉ a) (h2 : c ∉ b) :
    c ∉ a ++ b := fun h => (List.mem_append.mp h).elim h1 h2

theorem not_mem_cons_chars {c d : Char} {t : List Char} (h1 : ¬ c = d) (h2 : c ∉ t) :
    c ∉ d :: t := fun h => (List.mem_cons.mp h).elim h1 h2

theorem not_newline_fmt (d : Date) : '\n' ∉ d.fmt :=
  not_mem_append_chars
    (not_mem_append_chars (not_newline_pad4 _)
      (not_mem_cons_chars (by decide) (not_newline_pad2 _)))
    (not_mem_cons_chars (by decide) (not_newline_pad2 _))

theorem not_newline_formatBillingPeriod (ps : Date) (pe : Option Date) :
    '\n' ∉ formatBillingPeriod (some ps) pe := by
  cases pe with
  | none => exact not_newline_fmt ps
  | some e =>
    exact not_mem_append_chars (not_newline_fmt ps)
      (not_mem_cons_chars (by decide)
        (not_mem_cons_chars (by decide)
          (not_mem_cons_chars (by decide)
            (not_mem_cons_chars (by decide) (not_newline_fmt e)))))

theorem not_newline_bpLine (ps : Date) (pe : Option Date) : '\n' ∉ bpLine ps pe :=
  not_mem_append_chars (by decide)
    (not_mem_cons_chars (by decide) (not_newline_formatBillingPeriod ps pe))

theorem fmt_concat (d : Date) : ∃ u, d.fmt = u ++ [digitChar d.day] := by
  refine ⟨pad4 d.year ++ '-' :: pad2 d.month ++ ['-', digitChar (d.day / 10)], ?_⟩
  simp [Date.fmt, pad2, pad4]

theorem bpLine_concat (ps : Date) (pe : Option Date) :
    ∃ u k, bpLine ps pe = u ++ [digitChar k] := by
  cases pe with
  | none =>
    rcases fmt_concat ps with ⟨u, hu⟩
    refine ⟨bpLabel ++ ' ' :: u, ps.day, ?_⟩
    simp [bpLine, formatBillingPeriod, hu]
  | some e =>
    rcases fmt_concat e with ⟨u, hu⟩
    refine ⟨bpLabel ++ ' ' :: (ps.fmt ++ ' ' :: 't' :: 'o' :: ' ' :: u), e.day, ?_⟩
    simp [bpLine, formatBillingPeriod, hu]

theorem stripTrailing_concat {u : List Char} {c : Char} (h : isPySpace c = false) :
    stripTrailing (u ++ [c]) = u ++ [c] := by
  unfold stripTrailing
  rw [List.reverse_concat, List.dropWhile_cons_of_neg (by simp [h]), ← List.reverse_concat]
  rw [List.reverse_reverse]

theorem stripTrailing_bpLine_tail (m : List Char) (ps : Date) (pe : Option Date) :
    stripTrailing (m ++ '\n' :: bpLine ps pe) = m ++ '\n' :: bpLine ps pe := by
  rcases bpLine_concat ps pe with ⟨u, k, hu⟩
  have e1 : m ++ '\n' :: bpLine ps pe = (m ++ '\n' :: u) ++ [digitChar k] := by
    simp [hu]
  rw [e1, stripTrailing_concat (digitChar_not_space k), ← e1]

theorem stripLeading_bpLabel_append (x : List Char) :
    stripLeading (bpLabel ++ x) = bpLabel ++ x := by
  unfold stripLeading
  rw [List.dropWhile_append]
  have h1 : bpLabel.dropWhile isPySpace = bpLabel := by decide
  rw [h1]
  have h2 : bpLabel.isEmpty = false := by decide
  simp [h2]

/-- Dropping leading whitespace never changes the labelled line. -/
theorem dropWhile_bpLine (ps : Date) (pe : Option Date) :
    List.dropWhile isPySpace (bpLine ps pe) = bpLine ps pe :=
  stripLeading_bpLabel_append (' ' :: formatBillingPeriod (some ps) pe)

/-- Normal form of the merge when the label does not occur in the memo:
the labelled line is appended, and the strip reduces to stripping the
memo's left end (the appended line ends in a digit). -/
theorem merge_label_absent_form (memo : List Char) (ps : Date) (pe : Option Date)
    (h : ¬ bpLabel <:+: memo) :
    mergeBillingPeriod memo ps pe =
      if (stripLeading memo).isEmpty then bpLine ps pe
      else stripLeading memo ++ '\n' :: bpLine ps pe := by
  unfold mergeBillingPeriod
  rw [if_neg h]
  unfold pyStrip stripLeading
  rw [List.dropWhile_append]
  by_cases he : (memo.dropWhile isPySpace).isEmpty
  · rw [if_pos he, if_pos he]
    have h1 : List.dropWhile isPySpace ('\n' :: bpLine ps pe) = bpLine ps pe := by
      rw [List.dropWhile_cons_of_pos (by decide)]
      exact dropWhile_bpLine ps pe
    rw [h1]
    rcases bpLine_concat ps pe with ⟨u, k, hu⟩
    rw [hu, stripTrailing_concat (digitChar_not_space k)]
  · rw [if_neg he, if_neg he]
    exact stripTrailing_bpLine_tail _ ps pe

theorem label_prefix_bpLine (ps : Date) (pe : Option Date) : bpLabel <+: bpLine ps pe :=
  List.prefix_append bpLabel (' ' :: formatBillingPeriod (some ps) pe)

theorem replaceBpLine_idem (ps : Date) (pe : Option Date) (l : List Char) :
    replaceBpLine ps pe (replaceBpLine ps pe l) = replaceBpLine ps pe l := by
  unfold replaceBpLine
  by_cases h : bpLabel <+: l
  · rw [if_pos h, if_pos (label_prefix_bpLine ps pe)]
  · rw [if_neg h, if_neg h]

theorem merge_replaced (ps : Date) (pe : Option Date) (ls : List (List Char))
    (h1 : ls ≠ []) (h2 : ∀ l ∈ ls, '\n' ∉ l) (h3 : ∃ l ∈ ls, bpLabel <:+: l) :
    mergeBillingPeriod (joinOnChar '\n' (ls.map (replaceBpLine ps pe))) ps pe =
      joinOnChar '\n' (ls.map (replaceBpLine ps pe)) := by
  have hne : ls.map (replaceBpLine ps pe) ≠ [] := by
    intro hcon
    exact h1 (List.map_eq_nil_iff.mp hcon)
  have hnn : ∀ l ∈ ls.map (replaceBpLine ps pe), '\n' ∉ l := by
    intro l hl
    rcases List.mem_map.mp hl with ⟨l0, hl0, rfl⟩
    unfold replaceBpLine
    by_cases hp : bpLabel <+: l0
    · rw [if_pos hp]; exact not_newline_bpLine ps pe
    · rw [if_neg hp]; exact h2 l0 hl0
  have hinf : bpLabel <:+: joinOnChar '\n' (ls.map (replaceBpLine ps pe)) := by
    rcases h3 with ⟨l, hl, hi⟩
    refine (infix_joinOnChar_iff (by decide) _ hne).mpr
      ⟨replaceBpLine ps pe l, List.mem_map_of_mem _ hl, ?_⟩
    unfold replaceBpLine
    by_cases hp : bpLabel <+: l
    · rw [if_pos hp]; exact (label_prefix_bpLine ps pe).isInfix
    · rw [if_neg hp]; exact hi
  unfold mergeBillingPeriod
  rw [if_pos hinf]
  rw [splitOnChar_joinOnChar '\n' _ hne hnn]
  rw [List.map_map]
  congr 1
  apply List.map_congr_left
  intro l _
  exact replaceBpLine_idem ps pe l

theorem merge_bpLine_fixed (ps : Date) (pe : Option Date) :
    mergeBillingPeriod (bpLine ps pe) ps pe = bpLine ps pe := by
  unfold mergeBillingPeriod
  rw [if_pos (label_prefix_bpLine ps pe).isInfix]
  rw [splitOnChar_eq_single '\n' _ (not_newline_bpLine ps pe)]
  simp only [List.map_cons, List.map_nil]
  unfold replaceBpLine
  rw [if_pos (label_prefix_bpLine ps pe)]
  rfl

theorem merge_tail_fixed (ps : Date) (pe : Option Date) (m2 : List Char)
    (hm2 : ∀ l ∈ splitOnChar '\n' m2, ¬ bpLabel <+: l) :
    mergeBillingPeriod (m2 ++ '\n' :: bpLine ps pe) ps pe =
      m2 ++ '\n' :: bpLine ps pe := by
  have hinf : bpLabel <:+: m2 ++ '\n' :: bpLine ps pe := by
    refine ((label_prefix_bpLine ps pe).isInfix).trans (List.IsSuffix.isInfix ?_)
    exact (List.suffix_cons '\n' _).trans (List.suffix_append m2 _)
  unfold mergeBillingPeriod
  rw [if_pos hinf]
  rw [splitOnChar_append, splitOnChar_eq_single '\n' _ (not_newline_bpLine ps pe)]
  rw [List.map_append]
  have hfix : ∀ l ∈ splitOnChar '\n' m2, replaceBpLine ps pe l = l := by
    intro l hl
    unfold replaceBpLine
    rw [if_neg (hm2 l hl)]
  have hmap : (splitOnChar '\n' m2).map (replaceBpLine ps pe) = splitOnChar '\n' m2 := by
    calc (splitOnChar '\n' m2).map (replaceBpLine ps pe)
        = (splitOnChar '\n' m2).map id := List.map_congr_left hfix
      _ = splitOnChar '\n' m2 := List.map_id _
  rw [hmap]
  simp only [List.map_cons, List.map_nil]
  have hrep : replaceBpLine ps pe (bpLine ps pe) = bpLine ps pe := by
    unfold replaceBpLine
    rw [if_pos (label_prefix_bpLine ps pe)]
  rw [hrep]
  rw [joinOnChar_concat '\n' _ _ (splitOnChar_ne_nil '\n' m2)]
  rw [joinOnChar_splitOnChar]

/-- C1: for every annotation text and billing period (start date, optional
end date), applying the billing-period merge of SyncService.handle_notion_update
twice with the same period yields output identical to applying it once — no
duplicate labelled lines accumulate. -/
theorem mergeBillingPeriod_idempotent (memo : List Char) (ps : Date) (pe : Option Date) :
    mergeBillingPeriod (mergeBillingPeriod memo ps pe) ps pe =
      mergeBillingPeriod memo ps pe := by
  by_cases h : bpLabel <:+: memo
  · have hres : mergeBillingPeriod memo ps pe =
        joinOnChar '\n' ((splitOnChar '\n' memo).map (replaceBpLine ps pe)) := by
      unfold mergeBillingPeriod
      rw [if_pos h]
    rw [hres]
    refine merge_replaced ps pe _ (splitOnChar_ne_nil '\n' memo)
      (splitOnChar_no_sep '\n' memo) ?_
    have hlab : ('\n' : Char) ∉ bpLabel := by decide
    refine (infix_joinOnChar_iff hlab _ (splitOnChar_ne_nil '\n' memo)).mp ?_
    rw [joinOnChar_splitOnChar]
    exact h
  · rw [merge_label_absent_form memo ps pe h]
    by_cases he : (stripLeading memo).isEmpty
    · rw [if_pos he]
      exact merge_bpLine_fixed ps pe
    · rw [if_neg he]
      refine merge_tail_fixed ps pe (stripLeading memo) ?_
      intro l hl hp
      apply h
      refine (hp.isInfix).trans ?_
      refine (infix_of_mem_splitOnChar hl).trans ?_
      exact (List.dropWhile_suffix isPySpace).isInfix

/-- Modelled on the spec wording of section 4.3 as amended for claim C5:
the replace branch is selected when the label occurs as a substring of some
line of the annotation (not when some line starts with it); every line that
begins with the label is rewritten to the fresh labelled line and all other
lines pass through unchanged in order; otherwise the labelled line is
appended after a newline and the whole result is trimmed. -/
def mergeSpecAmended (memo : List Char) (ps : Date) (pe : Option Date) : List Char :=
  if (splitOnChar '\n' memo).any (fun line => decide (bpLabel <:+: line)) then
    joinOnChar '\n' ((splitOnChar '\n' memo).map
      (fun line => if bpLabel <+: line then bpLine ps pe else line))
  else
    pyStrip (memo ++ '\n' :: bpLine ps pe)

/-- C5 (amended): the billing-period merge of SyncService.handle_notion_update
agrees everywhere with the amended line-by-line description: the branch is
chosen by substring containment of the label anywhere in the annotation,
label-starting lines are replaced in place, all other lines are preserved in
order, and when the label is absent the fresh labelled line is appended and
the result trimmed. -/
theorem mergeBillingPeriod_eq_specAmended (memo : List Char) (ps : Date) (pe : Option Date) :
    mergeBillingPeriod memo ps pe = mergeSpecAmended memo ps pe := by
  have hlab : ('\n' : Char) ∉ bpLabel := by decide
  have hcond : (bpLabel <:+: memo) ↔
      ((splitOnChar '\n' memo).any (fun line => decide (bpLabel <:+: line)) = true) := by
    rw [List.any_eq_true]
    constructor
    · intro h
      rcases (infix_joinOnChar_iff hlab _ (splitOnChar_ne_nil '\n' memo)).mp
        (by rw [joinOnChar_splitOnChar]; exact h) with ⟨l, hl, hi⟩
      exact ⟨l, hl, by simpa using hi⟩
    · rintro ⟨l, hl, hi⟩
      have : bpLabel <:+: joinOnChar '\n' (splitOnChar '\n' memo) :=
        (infix_joinOnChar_iff hlab _ (splitOnChar_ne_nil '\n' memo)).mpr
          ⟨l, hl, by simpa using hi⟩
      rwa [joinOnChar_splitOnChar] at this
  unfold mergeBillingPeriod mergeSpecAmended replaceBpLine
  by_cases h : bpLabel <:+: memo
  · rw [if_pos h, if_pos (hcond.mp h)]
  · rw [if_neg h, if_neg (fun hc => h (hcond.mpr hc))]

/-- Sanity anchor: the spec's append scenario evaluates as specified. -/
theorem merge_scenario_append :
    mergeBillingPeriod ("Net 30 terms".data) ⟨2024, 1, 1⟩ (some ⟨2024, 1, 31⟩) =
      ("Net 30 terms".data ++ '\n' :: "Billing Period: 2024-01-01 to 2024-01-31".data) := by
  decide

/-- Sanity anchor: the spec's replace scenario evaluates as specified. -/
theorem merge_scenario_replace :
    mergeBillingPeriod
        ("Net 30 terms".data ++ '\n' :: "Billing Period: 2023-12-01 to 2023-12-31".data)
        ⟨2024, 1, 1⟩ (some ⟨2024, 1, 31⟩) =
      ("Net 30 terms".data ++ '\n' :: "Billing Period: 2024-01-01 to 2024-01-31".data) := by
  decide

/-- C5 counterexample: with annotation containing the label only mid-line,
no line begins with the label, yet the code takes the replace branch (Python
substring test) and returns the annotation unchanged instead of appending
the labelled line as the claim requires. -/
theorem merge_line_scan_claim_cex :
    mergeBillingPeriod ("see Billing Period: above".data) ⟨2024, 1, 1⟩ none =
        ("see Billing Period: above".data) ∧
      mergeBillingPeriod ("see Billing Period: above".data) ⟨2024, 1, 1⟩ none ≠
        ("see Billing Period: above".data ++ '\n' :: "Billing Period: 2024-01-01".data) := by
  constructor
  · decide
  · decide

/-- Longest proper leading part of `run` ending just before its last
occurrence of a question mark: this is where the greedy character class of
the extraction regex backtracks to when a slash follows the run. Returns
none when `run` has no question mark. -/
def beforeLastQ : List Char → Option (List Char)
  | [] => none
  | c :: cs =>
    match beforeLastQ cs with
    | some t => some (c :: t)
    | none => if c = '?' then some [] else none

/-- One attempt of the Python regex search at a position immediately after
the literal token: the greedy class first consumes the whole run of
non-slash characters; the trailing alternation then accepts at end of
string, or backtracks to the rightmost question mark inside the run when a
slash follows; an empty capture is a failed attempt. -/
def reGroupAt (rest : List Char) : Option (List Char) :=
  let run := rest.takeWhile (fun c => !(c = '/'))
  if run.isEmpty then none
  else if run.length = rest.length then some run
  else
    match beforeLastQ run with
    | some t => if t.isEmpty then none else some t
    | none => none

/-- Bool test that `s` starts with the literal `pat` (recursing on the
pattern first). -/
def startsWithLit : List Char → List Char → Bool
  | [], _ => true
  | _ :: _, [] => false
  | p :: ps, c :: cs => p == c && startsWithLit ps cs

theorem startsWithLit_iff (pat s : List Char) : startsWithLit pat s = true ↔ pat <+: s := by
  induction pat generalizing s with
  | nil => simp [startsWithLit, List.nil_prefix]
  | cons p ps ih =>
    cases s with
    | nil => simp [startsWithLit]
    | cons c cs =>
      simp only [startsWithLit, Bool.and_eq_true, beq_iff_eq, ih, List.cons_prefix_cons]

/-- Leftmost-match loop of Python re.search for the pattern used by
notion_service._extract_stripe_id_from_url: at each position, if the
literal `invoices/` token begins there and the group match succeeds the
result is returned, otherwise the scan moves one position right. -/
def searchInvoicesToken : List Char → Option (List Char)
  | [] => none
  | c :: cs =>
    (if startsWithLit ("invoices/".data) (c :: cs) then reGroupAt ((c :: cs).drop 9)
     else none).or (searchInvoicesToken cs)

/-- notion_service._extract_stripe_id_from_url: None for a missing or empty
URL (Python truthiness), otherwise the regex search for
`invoices/([^/]+)(?:\?|$)` returning group 1. -/
def extractStripeIdFromUrl (url : Option (List Char)) : Option (List Char) :=
  match url with
  | none => none
  | some u => searchInvoicesToken u

/-- The URL written into the `Stripe link` property by
NotionService._invoice_to_notion_properties. -/
def stripeLinkUrl (id : List Char) : List Char :=
  "https://dashboard.stripe.com/invoices/".data ++ id

theorem reGroupAt_no_slash (id : List Char) (h1 : ¬ id = []) (h2 : '/' ∉ id) :
    reGroupAt id = some id := by
  unfold reGroupAt
  have htw : id.takeWhile (fun c => !(c = '/')) = id := by
    rw [List.takeWhile_eq_self_iff]
    intro c hc
    have hne : ¬ c = '/' := fun e => h2 (e ▸ hc)
    simp [hne]
  rw [htw]
  have hne : id.isEmpty = false := by
    cases id with
    | nil => exact absurd rfl h1
    | cons a as => rfl
  simp [hne]

theorem searchInvoicesToken_writtenUrl_step (id : List Char) :
    searchInvoicesToken ("https://dashboard.stripe.com/invoices/".data ++ id) =
      (reGroupAt id).or (searchInvoicesToken ("nvoices/".data ++ id)) := rfl

theorem extract_stripeLinkUrl (id : List Char) (h1 : ¬ id = []) (h2 : '/' ∉ id) :
    extractStripeIdFromUrl (some (stripeLinkUrl id)) = some id := by
  show searchInvoicesToken ("https://dashboard.stripe.com/invoices/".data ++ id) = some id
  rw [searchInvoicesToken_writtenUrl_step, reGroupAt_no_slash id h1 h2]
  rfl

/-- C9: the extraction regex does not strip a trailing query string. The
greedy character class consumes the question mark and everything after it,
and the trailing alternation then succeeds at end of string, so for the URL
`https://dashboard.stripe.com/invoices/in_123?foo=bar` the code returns
`in_123?foo=bar` where the claim requires `in_123`. -/
theorem extract_query_not_stripped :
    extractStripeIdFromUrl
        (some ("https://dashboard.stripe.com/invoices/in_123?foo=bar".data)) =
        some ("in_123?foo=bar".data) ∧
      extractStripeIdFromUrl
        (some ("https://dashboard.stripe.com/invoices/in_123?foo=bar".data)) ≠
        some ("in_123".data) := by
  constructor
  · decide
  · decide

/-- Sanity anchor for the regex model: when a slash follows the query, the
greedy class stops at the slash and backtracking does strip from the last
question mark, as the pattern author intended. -/
theorem extract_backtracks_at_slash :
    extractStripeIdFromUrl
        (some ("https://dashboard.stripe.com/invoices/in_1?a/b".data)) =
      some ("in_1".data) := by
  decide

/-- Last-modified instants; only their ordering matters to the code (both
sides are compared after `replace(tzinfo=None)`, so the model uses one
linearly ordered type). -/
abbrev Instant := Int

/-- app.models.invoice.InvoiceStatus (the `open` value is spelled `open_`
because `open` is a Lean keyword). -/
inductive InvoiceStatus
  | draft
  | open_
  | paid
  | uncollectible
  | void
  | deleted
deriving DecidableEq

/-- app.models.invoice.Invoice. Unix-timestamp fields arriving from Stripe
are modeled already converted to calendar dates (no claim inspects the
conversion itself). -/
structure Invoice where
  id : List Char
  invoiceNumber : Option (List Char)
  status : InvoiceStatus
  amount : Int
  finalizedDate : Option Date
  dueDate : Option Date
  memo : Option (List Char)
  customerId : List Char
  notionId : Option (List Char)
  billingPeriodStart : Option Date
  billingPeriodEnd : Option Date
  lastSyncedAt : Option Instant
  stripeUpdatedAt : Option Instant
  notionUpdatedAt : Option Instant
deriving DecidableEq

/-- Status lookup table of NotionService._invoice_to_notion_properties
(the Python dict literal); `deleted` has no entry. -/
def notionStatusTable : InvoiceStatus → Option (List Char)
  | .draft => some ("Draft".data)
  | .open_ => some ("Pending".data)
  | .paid => some ("Paid".data)
  | .uncollectible => some ("Void".data)
  | .void => some ("Void".data)
  | .deleted => none

/-- `status_map.get(invoice.status, "Draft")` in
NotionService._invoice_to_notion_properties. -/
def notionStatusName (s : InvoiceStatus) : List Char :=
  (notionStatusTable s).getD ("Draft".data)

/-- The property payload written by
NotionService._invoice_to_notion_properties. The amount is the decimal
major-unit number `invoice.amount / 100` (modeled exactly as a rational;
no claim depends on float rounding). -/
structure NotionProps where
  statusName : List Char
  amount : Rat
  stripeLink : Option (List Char)
  invoiceNumberTitle : List Char
  finalized : Option Date
  dueDate : Option Date
  billingPeriod : Option (Date × Option Date)
deriving DecidableEq

/-- NotionService._invoice_to_notion_properties. -/
def invoiceToNotionProperties (inv : Invoice) : NotionProps :=
  { statusName := notionStatusName inv.status
    amount := (inv.amount : Rat) / 100
    stripeLink := some (stripeLinkUrl inv.id)
    invoiceNumberTitle :=
      match inv.invoiceNumber with
      | some n => if n.isEmpty then inv.id else n
      | none => inv.id
    finalized := inv.finalizedDate
    dueDate := inv.dueDate
    billingPeriod :=
      match inv.billingPeriodStart with
      | some s => some (s, inv.billingPeriodEnd)
      | none => none }

/-- A page of the Notion invoice database. `lastEdited` is platform
metadata (stamped by Notion on every create/update); a page missing it
makes _page_to_notion_invoice raise. -/
structure NotionPage where
  pid : Nat
  props : NotionProps
  archived : Bool
  lastEdited : Option Instant
deriving DecidableEq

/-- The Notion invoice database: pages in creation order plus a fresh-id
counter for pages the platform will create next. -/
structure NotionDb where
  pages : List NotionPage
  nextId : Nat
deriving DecidableEq

/-- app.models.invoice.NotionInvoice (fields the sync logic reads). -/
structure NotionInvoice where
  notionId : Nat
  stripeId : Option (List Char)
  invoiceNumber : Option (List Char)
  statusName : List Char
  billingPeriodStart : Option Date
  billingPeriodEnd : Option Date
  lastEditedTime : Option Instant
deriving DecidableEq

/-- NotionService._page_to_notion_invoice. Returns none when the page has
no last_edited_time: `datetime.fromisoformat` raises there and the calling
query's except-handler turns that into None. -/
def pageToNotionInvoice (p : NotionPage) : Option NotionInvoice :=
  match p.lastEdited with
  | none => none
  | some t =>
    some
      { notionId := p.pid
        stripeId := extractStripeIdFromUrl p.props.stripeLink
        invoiceNumber := some p.props.invoiceNumberTitle
        statusName := p.props.statusName
        billingPeriodStart := (p.props.billingPeriod.map Prod.fst)
        billingPeriodEnd := (p.props.billingPeriod.bind Prod.snd)
        lastEditedTime := some t }

/-- The single result page the code sees: Notion`s databases.query with
page_size 100 returns (at most) the first 100 non-archived pages, and the
code never paginates further. -/
def visiblePages (db : NotionDb) : List NotionPage :=
  (db.pages.filter (fun p => !p.archived)).take 100

/-- The client-side match test in NotionService.query_invoice_by_stripe_id:
`if url_stripe_id and url_stripe_id == stripe_id` (Python truthiness on the
extracted id). -/
def pageMatches (stripeId : List Char) (p : NotionPage) : Bool :=
  match extractStripeIdFromUrl p.props.stripeLink with
  | some u => !u.isEmpty && decide (u = stripeId)
  | none => false

/-- NotionService.query_invoice_by_stripe_id: one query page of 100
records, scanned for the first page whose embedded Stripe id matches. -/
def queryInvoiceByStripeId (db : NotionDb) (stripeId : List Char) : Option NotionInvoice :=
  match (visiblePages db).find? (pageMatches stripeId) with
  | none => none
  | some page => pageToNotionInvoice page

/-- NotionService.create_or_update_invoice. `apiOk` false models a platform
error that exhausts the retries: the except-handler returns None and the
model performs no write. Creation (through the template path or not)
inserts exactly one fresh page carrying _invoice_to_notion_properties;
update rewrites the found page's properties in place. The platform stamps
last_edited_time on either write. -/
def createOrUpdateInvoice (apiOk : Bool) (now : Instant) (db : NotionDb)
    (inv : Invoice) : Option Nat × NotionDb :=
  if !apiOk then (none, db)
  else
    match (if inv.id.isEmpty then none else queryInvoiceByStripeId db inv.id) with
    | some e =>
      (some e.notionId,
       { db with
           pages := db.pages.map (fun p =>
             if p.pid = e.notionId then
               { p with props := invoiceToNotionProperties inv, lastEdited := some now }
             else p) })
    | none =>
      (some db.nextId,
       { pages := db.pages ++
           [{ pid := db.nextId
              props := invoiceToNotionProperties inv
              archived := false
              lastEdited := some now }]
         nextId := db.nextId + 1 })

/-- NotionService.delete_invoice_by_stripe_id: look the page up by Stripe
id; nothing found means nothing to archive and the call reports failure;
otherwise archive (soft delete) the page, `apiOk` false modeling an archive
call that fails after retries. -/
def deleteInvoiceByStripeId (apiOk : Bool) (db : NotionDb) (stripeId : List Char) :
    Bool × NotionDb :=
  match queryInvoiceByStripeId db stripeId with
  | none => (false, db)
  | some e =>
    if apiOk then
      (true,
       { db with
           pages := db.pages.map (fun p =>
             if p.pid = e.notionId then { p with archived := true } else p) })
    else (false, db)

/-- SyncService._sync_to_notion: archival for deleted invoices, otherwise
stamp last_synced_at and create-or-update, reporting success and the
resulting page id. -/
def syncToNotion (apiOk : Bool) (now : Instant) (db : NotionDb) (inv : Invoice) :
    (Bool × Option Nat) × NotionDb :=
  if inv.status = .deleted then
    let r := deleteInvoiceByStripeId apiOk db inv.id
    ((r.1, none), r.2)
  else
    let inv' := { inv with lastSyncedAt := some now }
    match createOrUpdateInvoice apiOk now db inv' with
    | (some nid, db') => ((true, some nid), db')
    | (none, db') => ((false, none), db')

/-- C4: for every invoice whose status is Deleted, the payments-to-document
transfer only requests archival of the existing counterpart and returns the
archival call's outcome with no page id; the page count never grows (no
create), and with no counterpart it archives nothing, reports failure, and
leaves the database untouched. -/
theorem deleted_invoice_archival_only (apiOk : Bool) (now : Instant) (db : NotionDb)
    (inv : Invoice) (h : inv.status = .deleted) :
    syncToNotion apiOk now db inv =
        (((deleteInvoiceByStripeId apiOk db inv.id).1, none),
          (deleteInvoiceByStripeId apiOk db inv.id).2) ∧
      ((syncToNotion apiOk now db inv).2.pages.length = db.pages.length) ∧
      (queryInvoiceByStripeId db inv.id = none →
        syncToNotion apiOk now db inv = ((false, none), db)) := by
  have h1 : syncToNotion apiOk now db inv =
      (((deleteInvoiceByStripeId apiOk db inv.id).1, none),
        (deleteInvoiceByStripeId apiOk db inv.id).2) := by
    unfold syncToNotion
    rw [if_pos h]
  refine ⟨h1, ?_, ?_⟩
  · rw [h1]
    unfold deleteInvoiceByStripeId
    rcases hq : queryInvoiceByStripeId db inv.id with _ | e
    · rfl
    · by_cases hok : apiOk
      · simp [hok]
      · simp [hok]
  · intro hq
    rw [h1]
    unfold deleteInvoiceByStripeId
    rw [hq]

/-- Empty document database used by concrete witnesses. -/
def emptyDb : NotionDb := { pages := [], nextId := 0 }

/-- Concrete deleted invoice used by the C4 witness. -/
def deletedInvoice : Invoice :=
  { id := "in_del".data
    invoiceNumber := none
    status := .deleted
    amount := 500
    finalizedDate := none
    dueDate := none
    memo := none
    customerId := "cus_1".data
    notionId := none
    billingPeriodStart := none
    billingPeriodEnd := none
    lastSyncedAt := none
    stripeUpdatedAt := none
    notionUpdatedAt := none }

theorem deleted_invoice_archival_only_witness :
    deletedInvoice.status = .deleted ∧
      queryInvoiceByStripeId emptyDb deletedInvoice.id = none ∧
      syncToNotion true 0 emptyDb deletedInvoice = ((false, none), emptyDb) := by
  refine ⟨rfl, by decide, ?_⟩
  exact (deleted_invoice_archival_only true 0 emptyDb deletedInvoice rfl).2.2 (by decide)

/-- C10: the counterpart lookup inspects at most the first 100 visible
records of the invoice collection (a single query page, no pagination), so
when every match lies beyond those records the lookup reports NotFound even
though a counterpart exists. -/
theorem query_misses_beyond_first_page (db : NotionDb) (stripeId : List Char)
    (_hexists : ∃ p ∈ db.pages.filter (fun p => !p.archived),
      pageMatches stripeId p = true)
    (hfirst : ∀ p ∈ (db.pages.filter (fun p => !p.archived)).take 100,
      pageMatches stripeId p = false) :
    queryInvoiceByStripeId db stripeId = none := by
  unfold queryInvoiceByStripeId visiblePages
  have hnone : ((db.pages.filter (fun p => !p.archived)).take 100).find?
      (pageMatches stripeId) = none := by
    rw [List.find?_eq_none]
    intro p hp
    simp [hfirst p hp]
  rw [hnone]

/-- Property payload of a page with no Stripe link (e.g. a hand-made page). -/
def blankProps : NotionProps :=
  { statusName := "Draft".data
    amount := 0
    stripeLink := none
    invoiceNumberTitle := []
    finalized := none
    dueDate := none
    billingPeriod := none }

/-- A visible page with no Stripe link. -/
def blankPage (i : Nat) : NotionPage :=
  { pid := i, props := blankProps, archived := false, lastEdited := some 0 }

/-- A visible page whose Stripe link embeds the given id. -/
def linkedPage (i : Nat) (stripeId : List Char) : NotionPage :=
  { pid := i
    props := { blankProps with stripeLink := some (stripeLinkUrl stripeId) }
    archived := false
    lastEdited := some 0 }

/-- Database whose only matching page is the 101st visible record. -/
def bigDb : NotionDb :=
  { pages := (List.range 100).map blankPage ++ [linkedPage 100 ("in_hidden".data)]
    nextId := 101 }

set_option maxRecDepth 40000 in
theorem query_misses_beyond_first_page_witness :
    (∃ p ∈ bigDb.pages.filter (fun p => !p.archived),
        pageMatches ("in_hidden".data) p = true) ∧
      (∀ p ∈ (bigDb.pages.filter (fun p => !p.archived)).take 100,
        pageMatches ("in_hidden".data) p = false) ∧
      queryInvoiceByStripeId bigDb ("in_hidden".data) = none := by
  refine ⟨by decide, by decide, ?_⟩
  exact query_misses_beyond_first_page bigDb ("in_hidden".data) (by decide) (by decide)

/-- Number of document-side records whose link field carries the given
payment identifier. -/
def countBearing (db : NotionDb) (stripeId : List Char) : Nat :=
  (db.pages.filter (pageMatches stripeId)).length

/-- Concrete open invoice used by the C2 counterexample and witness. -/
def openInvoice : Invoice :=
  { id := "in_x".data
    invoiceNumber := some ("INV-1".data)
    status := .open_
    amount := 1200
    finalizedDate := none
    dueDate := none
    memo := none
    customerId := "cus_1".data
    notionId := none
    billingPeriodStart := none
    billingPeriodEnd := none
    lastSyncedAt := none
    stripeUpdatedAt := none
    notionUpdatedAt := none }

/-- Database already holding 100 visible non-matching pages: the created
counterpart will land beyond the single query page. -/
def fullDb : NotionDb := { pages := (List.range 100).map blankPage, nextId := 1000 }

set_option maxRecDepth 40000 in
/-- C2 counterexample: with 100 pre-existing visible records and no
counterpart for the identifier, two sequential payments-to-document
transfers create TWO records bearing the identifier — the created page is
outside the 100-record query page, so the second call cannot find it and
creates again. -/
theorem upsert_duplicate_cex :
    countBearing
        (createOrUpdateInvoice true 1
          (createOrUpdateInvoice true 0 fullDb openInvoice).2 openInvoice).2
        ("in_x".data) = 2 := by
  decide

theorem query_none_of_no_match (db : NotionDb) (stripeId : List Char)
    (h : ∀ p ∈ db.pages, pageMatches stripeId p = false) :
    queryInvoiceByStripeId db stripeId = none := by
  unfold queryInvoiceByStripeId visiblePages
  have hnone : ((db.pages.filter (fun p => !p.archived)).take 100).find?
      (pageMatches stripeId) = none := by
    rw [List.find?_eq_none]
    intro p hp
    simp [h p (List.mem_of_mem_filter (List.mem_of_mem_take hp))]
  rw [hnone]

/-- The page inserted by the create branch of
NotionService.create_or_update_invoice. -/
def createdPage (db : NotionDb) (inv : Invoice) (now : Instant) : NotionPage :=
  { pid := db.nextId
    props := invoiceToNotionProperties inv
    archived := false
    lastEdited := some now }

theorem createOrUpdate_creates (db : NotionDb) (inv : Invoice) (now : Instant)
    (hid : inv.id.isEmpty = false)
    (hq : queryInvoiceByStripeId db inv.id = none) :
    createOrUpdateInvoice true now db inv =
      (some db.nextId,
       { pages := db.pages ++ [createdPage db inv now], nextId := db.nextId + 1 }) := by
  unfold createOrUpdateInvoice
  rw [hid, hq]
  rfl

theorem createOrUpdate_updates (db : NotionDb) (inv : Invoice) (now : Instant)
    (e : NotionInvoice) (hid : inv.id.isEmpty = false)
    (hq : queryInvoiceByStripeId db inv.id = some e) :
    createOrUpdateInvoice true now db inv =
      (some e.notionId,
       { db with
           pages := db.pages.map (fun p =>
             if p.pid = e.notionId then
               { p with props := invoiceToNotionProperties inv, lastEdited := some now }
             else p) }) := by
  unfold createOrUpdateInvoice
  rw [hid, hq]
  rfl

/-- C2 (amended): given a well-formed payment identifier with no existing
counterpart, fresh platform page ids, and a collection small enough that
the created record stays inside the single 100-record query page, two
sequential payments-to-document transfers leave exactly one record bearing
the identifier: the first call creates it (writing the link field), the
second finds it by the identifier and updates in place (same returned page
id, no page added). -/
theorem upsert_creates_exactly_one (db : NotionDb) (inv : Invoice) (now1 now2 : Instant)
    (hid : ¬ inv.id = []) (hslash : '/' ∉ inv.id)
    (hnone : ∀ p ∈ db.pages, pageMatches inv.id p = false)
    (hlen : (db.pages.filter (fun p => !p.archived)).length ≤ 99)
    (hfresh : ∀ p ∈ db.pages, ¬ p.pid = db.nextId) :
    countBearing (createOrUpdateInvoice true now2
        (createOrUpdateInvoice true now1 db inv).2 inv).2 inv.id = 1 ∧
      (createOrUpdateInvoice true now2
        (createOrUpdateInvoice true now1 db inv).2 inv).1 =
        (createOrUpdateInvoice true now1 db inv).1 ∧
      (createOrUpdateInvoice true now2
        (createOrUpdateInvoice true now1 db inv).2 inv).2.pages.length =
        (createOrUpdateInvoice true now1 db inv).2.pages.length := by
  have hidb : inv.id.isEmpty = false := by
    cases hii : inv.id with
    | nil => exact absurd hii hid
    | cons c cs => rfl
  have hmatch : ∀ now : Instant, pageMatches inv.id (createdPage db inv now) = true := by
    intro now
    have hsl : (createdPage db inv now).props.stripeLink = some (stripeLinkUrl inv.id) := rfl
    unfold pageMatches
    rw [hsl, extract_stripeLinkUrl inv.id hid hslash]
    simp [hidb]
  have hq1 := query_none_of_no_match db inv.id hnone
  have e1 := createOrUpdate_creates db inv now1 hidb hq1
  rw [e1]
  have hvis1 : visiblePages
      { pages := db.pages ++ [createdPage db inv now1], nextId := db.nextId + 1 } =
      db.pages.filter (fun p => !p.archived) ++ [createdPage db inv now1] := by
    unfold visiblePages
    rw [List.filter_append]
    have hnew : List.filter (fun p => !p.archived) [createdPage db inv now1] =
        [createdPage db inv now1] := rfl
    rw [hnew]
    refine List.take_of_length_le ?_
    rw [List.length_append]
    simpa using hlen
  have hfindold : (db.pages.filter (fun p => !p.archived)).find? (pageMatches inv.id)
      = none := by
    rw [List.find?_eq_none]
    intro p hp
    simp [hnone p (List.mem_of_mem_filter hp)]
  have hfind2 : (visiblePages
      { pages := db.pages ++ [createdPage db inv now1], nextId := db.nextId + 1 }).find?
        (pageMatches inv.id) = some (createdPage db inv now1) := by
    rw [hvis1, List.find?_append, hfindold]
    simp [List.find?, hmatch now1]
  have hq2 : queryInvoiceByStripeId
      { pages := db.pages ++ [createdPage db inv now1], nextId := db.nextId + 1 } inv.id =
      pageToNotionInvoice (createdPage db inv now1) := by
    unfold queryInvoiceByStripeId
    rw [hfind2]
  obtain ⟨e, he, henid⟩ : ∃ e, pageToNotionInvoice (createdPage db inv now1) = some e ∧
      e.notionId = db.nextId := ⟨_, rfl, rfl⟩
  rw [he] at hq2
  have e2 := createOrUpdate_updates
    { pages := db.pages ++ [createdPage db inv now1], nextId := db.nextId + 1 }
    inv now2 e hidb hq2
  rw [e2]
  have hupd : (db.pages ++ [createdPage db inv now1]).map (fun p =>
      if p.pid = e.notionId then
        { p with props := invoiceToNotionProperties inv, lastEdited := some now2 }
      else p) = db.pages ++ [createdPage db inv now2] := by
    rw [List.map_append]
    have hold : db.pages.map (fun p =>
        if p.pid = e.notionId then
          { p with props := invoiceToNotionProperties inv, lastEdited := some now2 }
        else p) = db.pages := by
      calc db.pages.map (fun p =>
            if p.pid = e.notionId then
              { p with props := invoiceToNotionProperties inv, lastEdited := some now2 }
            else p)
          = db.pages.map id := by
            refine List.map_congr_left ?_
            intro p hp
            rw [if_neg (fun hc => hfresh p hp (by rw [hc, henid]))]
            rfl
        _ = db.pages := List.map_id db.pages
    rw [hold]
    have hnewp : (createdPage db inv now1).pid = e.notionId := by rw [henid]; rfl
    simp only [List.map_cons, List.map_nil, if_pos hnewp]
    rfl
  constructor
  · show countBearing
        { pages := (db.pages ++ [createdPage db inv now1]).map _, nextId := db.nextId + 1 }
        inv.id = 1
    unfold countBearing
    rw [hupd]
    rw [List.filter_append]
    have hold : db.pages.filter (pageMatches inv.id) = [] := by
      rw [List.filter_eq_nil_iff]
      intro p hp
      simp [hnone p hp]
    rw [hold]
    simp [List.filter, hmatch now2]
  · constructor
    · show some e.notionId = some db.nextId
      rw [henid]
    · show ((db.pages ++ [createdPage db inv now1]).map _).length =
        (db.pages ++ [createdPage db inv now1]).length
      rw [List.length_map]

theorem upsert_creates_exactly_one_witness :
    countBearing (createOrUpdateInvoice true 1
        (createOrUpdateInvoice true 0 emptyDb openInvoice).2 openInvoice).2
        openInvoice.id = 1 ∧
      (createOrUpdateInvoice true 1
        (createOrUpdateInvoice true 0 emptyDb openInvoice).2 openInvoice).1 =
        (createOrUpdateInvoice true 0 emptyDb openInvoice).1 := by
  have h := upsert_creates_exactly_one emptyDb openInvoice 0 1 (by decide) (by decide)
    (by decide) (by decide) (by decide)
  exact ⟨h.1, h.2.1⟩

/-- Status lookup of StripeInvoice.to_invoice_model:
`status_map.get(self.status, InvoiceStatus.DRAFT)` over the five mapped
Stripe status strings. -/
def stripeStatusToInvoiceStatus (s : List Char) : InvoiceStatus :=
  if s = "draft".data then .draft
  else if s = "open".data then .open_
  else if s = "paid".data then .paid
  else if s = "uncollectible".data then .uncollectible
  else if s = "void".data then .void
  else .draft

/-- C8: the status mapping is total in both directions: every value of the
closed internal vocabulary (Deleted included) yields a defined Notion
status name through the lookup-with-default of
_invoice_to_notion_properties, and every Stripe status string outside the
five mapped keys (hence also any unrecognized value) maps to the safe
default Draft in StripeInvoice.to_invoice_model; neither direction raises. -/
theorem status_mapping_total :
    (∀ s : InvoiceStatus,
        notionStatusName s ∈
          [("Draft".data), ("Pending".data), ("Paid".data), ("Void".data)]) ∧
      (∀ str : List Char,
        str ∉ [("draft".data), ("open".data), ("paid".data),
            ("uncollectible".data), ("void".data)] →
          stripeStatusToInvoiceStatus str = .draft) := by
  constructor
  · intro s
    cases s <;> decide
  · intro str h
    simp only [List.mem_cons, List.not_mem_nil, or_false, not_or] at h
    obtain ⟨h1, h2, h3, h4, h5⟩ := h
    unfold stripeStatusToInvoiceStatus
    rw [if_neg h1, if_neg h2, if_neg h3, if_neg h4, if_neg h5]

theorem status_mapping_total_witness :
    ("deleted".data ∉ [("draft".data), ("open".data), ("paid".data),
        ("uncollectible".data), ("void".data)]) ∧
      stripeStatusToInvoiceStatus ("deleted".data) = .draft ∧
      notionStatusName .deleted = "Draft".data := by
  refine ⟨by decide, ?_, by decide⟩
  exact status_mapping_total.2 ("deleted".data) (by decide)

/-- The Stripe side as seen by the sync: invoice ids paired with their
current description/memo. -/
structure StripeDb where
  invoices : List (List Char × Option (List Char))
deriving DecidableEq

/-- StripeService.update_invoice_memo: Invoice.modify(id, description)
succeeds only if the invoice exists and the platform call goes through
(`apiOk`); any failure is caught and reported as False. -/
def updateInvoiceMemo (apiOk : Bool) (sdb : StripeDb) (id memo : List Char) :
    Bool × StripeDb :=
  if !apiOk then (false, sdb)
  else if sdb.invoices.any (fun e => decide (e.1 = id)) then
    (true,
     { invoices := sdb.invoices.map (fun e => if e.1 = id then (e.1, some memo) else e) })
  else (false, sdb)

/-- SyncService._sync_to_stripe: refuse ids that are empty or lack the
`in_` Stripe invoice prefix, write the memo when one is present (Python
truthiness: a missing or empty memo means nothing to sync, a no-op
success). -/
def syncToStripe (apiOk : Bool) (sdb : StripeDb) (inv : Invoice) : Bool × StripeDb :=
  if inv.id.isEmpty || !startsWithLit ("in_".data) inv.id then (false, sdb)
  else
    match inv.memo with
    | some m => if m.isEmpty then (true, sdb) else updateInvoiceMemo apiOk sdb inv.id m
    | none => (true, sdb)

/-- C6: a document-to-payments transfer whose linked payment identifier is
empty or does not start with the required `in_` prefix returns failure and
performs no write to the payments side. -/
theorem sync_to_stripe_refuses_bad_id (apiOk : Bool) (sdb : StripeDb) (inv : Invoice)
    (h : inv.id = [] ∨ ¬ ("in_".data <+: inv.id)) :
    syncToStripe apiOk sdb inv = (false, sdb) := by
  unfold syncToStripe
  have hcond : (inv.id.isEmpty || !startsWithLit ("in_".data) inv.id) = true := by
    rcases h with h | h
    · rw [h]
      rfl
    · have : startsWithLit ("in_".data) inv.id = false := by
        rcases hb : startsWithLit ("in_".data) inv.id with _ | _
        · rfl
        · exact absurd ((startsWithLit_iff _ _).mp hb) h
      rw [this]
      simp
  rw [hcond]
  rfl

theorem sync_to_stripe_refuses_bad_id_witness :
    (({ deletedInvoice with id := "bad_7".data } : Invoice).id = [] ∨
        ¬ ("in_".data <+: ({ deletedInvoice with id := "bad_7".data } : Invoice).id)) ∧
      syncToStripe true { invoices := [] } { deletedInvoice with id := "bad_7".data } =
        (false, { invoices := [] }) := by
  refine ⟨Or.inr (by decide), ?_⟩
  exact sync_to_stripe_refuses_bad_id true { invoices := [] }
    { deletedInvoice with id := "bad_7".data } (Or.inr (by decide))

/-- app.models.invoice.StripeInvoice (the webhook/API payload fields the
sync reads; Unix-timestamp date fields are modeled already converted to
calendar dates, as in `Invoice`). -/
structure StripeInvoice where
  id : List Char
  number : Option (List Char)
  status : List Char
  customer : List Char
  amountDue : Int
  amountPaid : Int
  amountRemaining : Int
  created : Int
  dueDate : Option Date
  finalizedAt : Option Date
  description : Option (List Char)
deriving DecidableEq

/-- The fallback invoice number of StripeInvoice.to_invoice_model: last
underscore-separated segment of the id, last 8 characters, uppercased,
plus a draft suffix. -/
def generatedInvoiceNumber (si : StripeInvoice) : List Char :=
  let lastSeg := (splitOnChar '_' si.id).getLastD []
  let idPart := (lastSeg.drop (lastSeg.length - 8)).map Char.toUpper
  idPart ++ (if si.status = "draft".data then "-DRAFT".data else [])

/-- StripeInvoice.to_invoice_model; `now` stands for the datetime.now()
stamped into stripe_updated_at. -/
def toInvoiceModel (now : Instant) (si : StripeInvoice) : Invoice :=
  { id := si.id
    invoiceNumber := some
      (match si.number with
       | some n => if n.isEmpty then generatedInvoiceNumber si else n
       | none => generatedInvoiceNumber si)
    status := stripeStatusToInvoiceStatus si.status
    amount := si.amountDue
    finalizedDate := si.finalizedAt
    dueDate := si.dueDate
    memo := si.description
    customerId := si.customer
    notionId := none
    billingPeriodStart := none
    billingPeriodEnd := none
    lastSyncedAt := none
    stripeUpdatedAt := some now
    notionUpdatedAt := none }

/-- Outcome of one record of the batch loop. -/
inductive RecordOutcome
  | synced
  | failed
  | unchanged
deriving DecidableEq

/-- The staleness guard of perform_background_sync (lines 339-352): skip
only when the counterpart was found, both instants are known, and the
counterpart's last-edited instant is strictly newer than the source's
update instant; a missing counterpart or an absent instant means no skip.
Both sides are compared after replace(tzinfo=None), which the Instant
model absorbs. -/
def stalenessSkip (existing : Option NotionInvoice) (upd : Option Instant) : Bool :=
  match existing with
  | some e =>
    match e.lastEditedTime, upd with
    | some tn, some ts => decide (ts < tn)
    | _, _ => false
  | none => false

/-- Loop body of perform_background_sync for one already-converted invoice
(lines 334-361): query the counterpart, count the record unchanged when the
staleness guard fires (no write), otherwise run the payments-to-document
transfer and count its outcome. `apiOk` false models a transient platform
failure (or an exception) while syncing this record, which the inner
except-handler turns into a failed count. -/
def processRecord (apiOk : Bool) (now : Instant) (db : NotionDb) (inv : Invoice) :
    RecordOutcome × NotionDb :=
  if stalenessSkip (queryInvoiceByStripeId db inv.id) inv.stripeUpdatedAt then
    (.unchanged, db)
  else
    match syncToNotion apiOk now db inv with
    | ((true, _), db') => (.synced, db')
    | ((false, _), db') => (.failed, db')

/-- The per-run counters of perform_background_sync. -/
structure SyncStats where
  total : Nat
  synced : Nat
  failed : Nat
  unchanged : Nat
  deleted : Nat
deriving DecidableEq

/-- The for-loop of perform_background_sync: every listed record is
converted and processed and bumps exactly one counter; `oracle i` gives
record i's external-call outcome; a failing record only bumps `failed` and
the loop continues. -/
def backgroundSyncLoop (oracle : Nat → Bool) (now : Instant) :
    NotionDb → Nat → List StripeInvoice → SyncStats → SyncStats × NotionDb
  | db, _, [], stats => (stats, db)
  | db, i, si :: rest, stats =>
    match processRecord (oracle i) now db (toInvoiceModel now si) with
    | (.synced, db') =>
      backgroundSyncLoop oracle now db' (i + 1) rest
        { stats with synced := stats.synced + 1 }
    | (.failed, db') =>
      backgroundSyncLoop oracle now db' (i + 1) rest
        { stats with failed := stats.failed + 1 }
    | (.unchanged, db') =>
      backgroundSyncLoop oracle now db' (i + 1) rest
        { stats with unchanged := stats.unchanged + 1 }

/-- SyncService.perform_background_sync after a successful listing of the
recent Stripe invoices: total is the listed count, the other counters start
at zero, and the loop handles every record (deletion reconciliation is out
of the batch pass, so `deleted` stays zero). -/
def performBackgroundSync (oracle : Nat → Bool) (now : Instant) (db : NotionDb)
    (recs : List StripeInvoice) : SyncStats × NotionDb :=
  backgroundSyncLoop oracle now db 0 recs
    { total := recs.length, synced := 0, failed := 0, unchanged := 0, deleted := 0 }

theorem backgroundSyncLoop_counts (oracle : Nat → Bool) (now : Instant) :
    ∀ (recs : List StripeInvoice) (db : NotionDb) (i : Nat) (stats : SyncStats),
      (backgroundSyncLoop oracle now db i recs stats).1.total = stats.total ∧
        (backgroundSyncLoop oracle now db i recs stats).1.deleted = stats.deleted ∧
        (backgroundSyncLoop oracle now db i recs stats).1.synced +
            (backgroundSyncLoop oracle now db i recs stats).1.failed +
            (backgroundSyncLoop oracle now db i recs stats).1.unchanged =
          stats.synced + stats.failed + stats.unchanged + recs.length := by
  intro recs
  induction recs with
  | nil =>
    intro db i stats
    exact ⟨rfl, rfl, by simp [backgroundSyncLoop]⟩
  | cons si rest ih =>
    intro db i stats
    rcases hp : processRecord (oracle i) now db (toInvoiceModel now si) with ⟨o, db'⟩
    cases o with
    | synced =>
      simp only [backgroundSyncLoop, hp]
      rcases ih db' (i + 1) { stats with synced := stats.synced + 1 } with ⟨h1, h2, h3⟩
      refine ⟨h1, h2, ?_⟩
      rw [h3]
      simp only [List.length_cons]
      omega
    | failed =>
      simp only [backgroundSyncLoop, hp]
      rcases ih db' (i + 1) { stats with failed := stats.failed + 1 } with ⟨h1, h2, h3⟩
      refine ⟨h1, h2, ?_⟩
      rw [h3]
      simp only [List.length_cons]
      omega
    | unchanged =>
      simp only [backgroundSyncLoop, hp]
      rcases ih db' (i + 1) { stats with unchanged := stats.unchanged + 1 } with ⟨h1, h2, h3⟩
      refine ⟨h1, h2, ?_⟩
      rw [h3]
      simp only [List.length_cons]
      omega

/-- C7: in every batch run whose initial listing succeeded, no single
record aborts the loop — each listed record (including failing ones) bumps
exactly one of synced/failed/unchanged — so the returned stats satisfy
total = listed count = synced + failed + unchanged and deleted = 0, for
every pattern of per-record failures. -/
theorem background_sync_stats_balance (oracle : Nat → Bool) (now : Instant)
    (db : NotionDb) (recs : List StripeInvoice) :
    (performBackgroundSync oracle now db recs).1.total = recs.length ∧
      (performBackgroundSync oracle now db recs).1.synced +
          (performBackgroundSync oracle now db recs).1.failed +
          (performBackgroundSync oracle now db recs).1.unchanged = recs.length ∧
      (performBackgroundSync oracle now db recs).1.deleted = 0 := by
  rcases backgroundSyncLoop_counts oracle now recs db 0
    { total := recs.length, synced := 0, failed := 0, unchanged := 0, deleted := 0 }
    with ⟨h1, h2, h3⟩
  exact ⟨h1, by rw [performBackgroundSync, h3]; simp, h2⟩

/-- C3: the staleness policy of the batch pass: when the counterpart is
found and its last-modified instant is strictly after the source's
payments-side update instant, the record is counted unchanged and no write
happens (the database is returned untouched); when the counterpart is
missing or either instant is absent, the guard does not fire and the loop
body returns exactly the payments-to-document transfer's outcome. -/
theorem staleness_skip_policy (apiOk : Bool) (now : Instant) (db : NotionDb)
    (inv : Invoice) :
    ((∃ e tn ts, queryInvoiceByStripeId db inv.id = some e ∧
        e.lastEditedTime = some tn ∧ inv.stripeUpdatedAt = some ts ∧ ts < tn) →
      processRecord apiOk now db inv = (.unchanged, db)) ∧
      ((queryInvoiceByStripeId db inv.id = none ∨
          (∃ e, queryInvoiceByStripeId db inv.id = some e ∧ e.lastEditedTime = none) ∨
          inv.stripeUpdatedAt = none) →
        processRecord apiOk now db inv =
          (match syncToNotion apiOk now db inv with
           | ((true, _), db') => (RecordOutcome.synced, db')
           | ((false, _), db') => (RecordOutcome.failed, db'))) := by
  constructor
  · rintro ⟨e, tn, ts, hq, hle, hts, hlt⟩
    unfold processRecord
    have hskip : stalenessSkip (queryInvoiceByStripeId db inv.id) inv.stripeUpdatedAt
        = true := by
      rw [hq, hts]
      show (match e.lastEditedTime, some ts with
            | some tn, some ts => decide (ts < tn)
            | _, _ => false) = true
      rw [hle]
      exact decide_eq_true hlt
    rw [hskip]
    rfl
  · intro h
    unfold processRecord
    have hskip : stalenessSkip (queryInvoiceByStripeId db inv.id) inv.stripeUpdatedAt
        = false := by
      rcases h with h | ⟨e, hq, hle⟩ | h
      · rw [h]
        rfl
      · rw [hq]
        show (match e.lastEditedTime, inv.stripeUpdatedAt with
              | some tn, some ts => decide (ts < tn)
              | _, _ => false) = false
        rw [hle]
      · rw [h]
        cases hq : queryInvoiceByStripeId db inv.id with
        | none => rfl
        | some e =>
          show (match e.lastEditedTime, (none : Option Instant) with
                | some tn, some ts => decide (ts < tn)
                | _, _ => false) = false
          cases e.lastEditedTime <;> rfl
    rw [hskip]
    rfl

/-- Database whose only page is the counterpart of `in_x`, last edited at
instant 10. -/
def staleDb : NotionDb :=
  { pages := [{ linkedPage 7 ("in_x".data) with lastEdited := some 10 }], nextId := 8 }

/-- The `in_x` invoice as listed by the batch pass at instant 5. -/
def staleSourceInvoice : Invoice := { openInvoice with stripeUpdatedAt := some 5 }

/-- The NotionInvoice the lookup produces for the stale counterpart. -/
def staleCounterpart : NotionInvoice :=
  { notionId := 7
    stripeId := some ("in_x".data)
    invoiceNumber := some []
    statusName := "Draft".data
    billingPeriodStart := none
    billingPeriodEnd := none
    lastEditedTime := some 10 }

set_option maxRecDepth 4000 in
theorem staleness_skip_policy_witness :
    (∃ e tn ts, queryInvoiceByStripeId staleDb staleSourceInvoice.id = some e ∧
        e.lastEditedTime = some tn ∧ staleSourceInvoice.stripeUpdatedAt = some ts ∧
        ts < tn) ∧
      processRecord true 0 staleDb staleSourceInvoice = (.unchanged, staleDb) := by
  refine ⟨⟨staleCounterpart, 10, 5, by decide, by decide, by decide, by decide⟩, ?_⟩
  exact (staleness_skip_policy true 0 staleDb staleSourceInvoice).1
    ⟨staleCounterpart, 10, 5, by decide, by decide, by decide, by decide⟩
